import Mathlib

/-!
# Verification of the ledger-fetch core

A shallow embedding, in Lean 4, of the core algorithms of the
`ledger-fetch` repository, together with proofs of the behavioural
claims made by its specification.

Embedded components (each definition is translated from the named
Python source):

* `ledger_fetch/utils.py` — `TransactionNormalizer.clean_description`,
  `TransactionNormalizer.normalize_payee`,
  `TransactionNormalizer.normalize_date`,
  `TransactionNormalizer.generate_transaction_id`, `CSVWriter.write`;
* `ledger_fetch/base.py` — `BankDownloader._is_better_account_number`,
  `BankDownloader.save_accounts`;
* `ledger_fetch/models.py` — `Account` (typed record form);
* `link_transfers.py` — the transfer-reconciliation pass.

Modelling conventions:

* Python `str` is Lean `String`; `str.lower` is mapped `Char.toLower`
  (adequate for the ASCII data handled here); `str.strip` is modelled
  with an explicit ASCII-whitespace trim.
* Python `float` amounts and balances are modelled as `ℚ`; pandas
  `NaN` cells are modelled as `none` in an `Option`.
* Printing, logging and file I/O are not modelled; only the values the
  code computes and writes.
-/

namespace LedgerFetch

/-! ## Python string helpers -/

/-- Python `str.lower` (characterwise; the data here is ASCII). -/
def lowerStr (s : String) : String := String.mk (s.toList.map Char.toLower)

/-- Python whitespace class `\s` (ASCII part): space, tab, newline,
carriage return, vertical tab, form feed. -/
def isPyWS (c : Char) : Bool :=
  c = ' ' || c = '\t' || c = '\n' || c = '\r' || c = Char.ofNat 11 || c = Char.ofNat 12

/-- Python substring test `needle in hay` on character lists. -/
def subIn (needle hay : List Char) : Bool :=
  hay.tails.any (fun t => needle.isPrefixOf t)

/-- Python substring test `needle in hay` on strings. -/
def pyIn (needle hay : String) : Bool := subIn needle.toList hay.toList

/-- Python `str.strip()` on a character list (whitespace at both ends). -/
def pyStrip (l : List Char) : List Char :=
  ((l.dropWhile isPyWS).reverse.dropWhile isPyWS).reverse

/-- Python `str.strip()` on strings. -/
def pyStripStr (s : String) : String := String.mk (pyStrip s.toList)

/-! ## `TransactionNormalizer.clean_description` (utils.py 26-43) -/

/-- `re.sub(r'\s+', ' ', description)`: replace every maximal run of
whitespace by a single space.  The flag records whether the previous
character belonged to a whitespace run, so each run emits one space. -/
def collapseWSAux : Bool → List Char → List Char
  | _, [] => []
  | prevWS, c :: cs =>
    if isPyWS c then
      (if prevWS then collapseWSAux true cs else ' ' :: collapseWSAux true cs)
    else c :: collapseWSAux false cs

/-- `re.sub(r'\s+', ' ', description)` on a character list. -/
def collapseWS (l : List Char) : List Char := collapseWSAux false l

/-- `re.sub(r'^(RBC |ROYAL BANK |AMEX )', '', cleaned, flags=IGNORECASE)`:
strip one known bank-name tag from the front, case-insensitively.
The pattern is anchored, so at most one replacement happens. -/
def stripBankTag (l : List Char) : List Char :=
  let low := l.map Char.toLower
  if ("rbc ".toList).isPrefixOf low then l.drop 4
  else if ("royal bank ".toList).isPrefixOf low then l.drop 11
  else if ("amex ".toList).isPrefixOf low then l.drop 5
  else l

/-- `TransactionNormalizer.clean_description`: empty input gives `""`;
otherwise collapse whitespace runs, strip, and remove a known bank tag. -/
def clean_description (description : String) : String :=
  if description = "" then ""
  else String.mk (stripBankTag (pyStrip (collapseWS description.toList)))

/-! ## Payee rule engine (utils.py 87-120)

A rule is a `{name, keywords, regex}` record from the YAML rule files.
A compiled regex pattern is modelled as its case-insensitive search
function `String → Bool`; a pattern that fails to compile (`re.error`,
caught and skipped with a warning in the source) is modelled as `none`. -/

structure PayeeRule where
  name : String
  keywords : List String
  regexes : List (Option (String → Bool))

/-- One keyword test: `keyword.lower() in cleaned.lower()`. -/
def keywordHit (cleaned kw : String) : Bool :=
  pyIn (lowerStr kw) (lowerStr cleaned)

/-- One regex test: `re.search(pattern, cleaned, IGNORECASE)`; an invalid
pattern never matches (the source logs and continues). -/
def regexHit (cleaned : String) (p : Option (String → Bool)) : Bool :=
  match p with
  | some m => m cleaned
  | none => false

/-- Whether a rule fires on a cleaned description: any keyword hit, else
any regex hit (the source checks keywords first, then regexes, but any
hit within one rule returns the same rule name). -/
def ruleHits (cleaned : String) (r : PayeeRule) : Bool :=
  r.keywords.any (keywordHit cleaned) || r.regexes.any (regexHit cleaned)

/-- The rule loop of `normalize_payee`: first rule that fires wins;
if none fires the cleaned text is returned unchanged. -/
def matchRules : List PayeeRule → String → String
  | [], cleaned => cleaned
  | r :: rs, cleaned => if ruleHits cleaned r then r.name else matchRules rs cleaned

/-- `TransactionNormalizer.normalize_payee` over a loaded rule list. -/
def normalize_payee (rules : List PayeeRule) (raw_payee : String) : String :=
  if raw_payee = "" then ""
  else matchRules rules (clean_description raw_payee)

/-- The two demonstration rules named by the specification. -/
def coffeeRule : PayeeRule := { name := "Coffee Co", keywords := ["coffee"], regexes := [] }

def genericRule : PayeeRule := { name := "Generic", keywords := ["co"], regexes := [] }

/-! ## `TransactionNormalizer.normalize_date` (utils.py 122-170)

`normalize_date` tries `datetime.strptime` with a fixed ordered format
list and renders the first success as `%Y-%m-%d`.  Each format is
embedded as a parser over the character list that mirrors CPython's
`_strptime` field regexes (`%m` is `1[0-2]|0[1-9]|[1-9]`, and so on)
followed by the `datetime` constructor's range validation.  `strptime`
fails when characters remain unconsumed, so every format parser
requires the whole string to be consumed. -/

/-- Numeric value of a digit character. -/
def digitVal (c : Char) : Nat := c.toNat - 48

/-- `%Y`: exactly four digits (CPython `_strptime`: `\d\d\d\d`). -/
def pYear : List Char → Option (Nat × List Char)
  | a :: b :: c :: d :: rest =>
    if a.isDigit && b.isDigit && c.isDigit && d.isDigit then
      some (digitVal a * 1000 + digitVal b * 100 + digitVal c * 10 + digitVal d, rest)
    else none
  | _ => none

/-- `%m`: `1[0-2]|0[1-9]|[1-9]`. -/
def pMonth : List Char → Option (Nat × List Char)
  | a :: b :: rest =>
    if a = '1' && '0' ≤ b && b ≤ '2' then some (10 + digitVal b, rest)
    else if a = '0' && '1' ≤ b && b ≤ '9' then some (digitVal b, rest)
    else if '1' ≤ a && a ≤ '9' then some (digitVal a, b :: rest)
    else none
  | [a] => if '1' ≤ a && a ≤ '9' then some (digitVal a, []) else none
  | [] => none

/-- `%d`: `3[01]|[12]\d|0[1-9]|[1-9]`. -/
def pDay : List Char → Option (Nat × List Char)
  | a :: b :: rest =>
    if a = '3' && ('0' = b || b = '1') then some (30 + digitVal b, rest)
    else if ('1' ≤ a && a ≤ '2') && b.isDigit then some (digitVal a * 10 + digitVal b, rest)
    else if a = '0' && '1' ≤ b && b ≤ '9' then some (digitVal b, rest)
    else if '1' ≤ a && a ≤ '9' then some (digitVal a, b :: rest)
    else none
  | [a] => if '1' ≤ a && a ≤ '9' then some (digitVal a, []) else none
  | [] => none

/-- `%H`: `2[0-3]|[0-1]\d|\d`. -/
def pHour : List Char → Option (Nat × List Char)
  | a :: b :: rest =>
    if a = '2' && '0' ≤ b && b ≤ '3' then some (20 + digitVal b, rest)
    else if ('0' ≤ a && a ≤ '1') && b.isDigit then some (digitVal a * 10 + digitVal b, rest)
    else if a.isDigit then some (digitVal a, b :: rest)
    else none
  | [a] => if a.isDigit then some (digitVal a, []) else none
  | [] => none

/-- `%M`: `[0-5]\d|\d`. -/
def pMinute : List Char → Option (Nat × List Char)
  | a :: b :: rest =>
    if ('0' ≤ a && a ≤ '5') && b.isDigit then some (digitVal a * 10 + digitVal b, rest)
    else if a.isDigit then some (digitVal a, b :: rest)
    else none
  | [a] => if a.isDigit then some (digitVal a, []) else none
  | [] => none

/-- `%S`: `6[0-1]|[0-5]\d|\d` (60/61 parse but the `datetime`
constructor then rejects them, so the format fails overall). -/
def pSecond : List Char → Option (Nat × List Char)
  | a :: b :: rest =>
    if a = '6' && ('0' = b || b = '1') then some (60 + digitVal b, rest)
    else if ('0' ≤ a && a ≤ '5') && b.isDigit then some (digitVal a * 10 + digitVal b, rest)
    else if a.isDigit then some (digitVal a, b :: rest)
    else none
  | [a] => if a.isDigit then some (digitVal a, []) else none
  | [] => none

/-- A literal character of the format string. -/
def pLit (c : Char) : List Char → Option (List Char)
  | x :: rest => if x = c then some rest else none
  | [] => none

/-- Whitespace in a format string matches `\s+`. -/
def pSpaces : List Char → Option (List Char)
  | x :: rest => if isPyWS x then some (rest.dropWhile isPyWS) else none
  | [] => none

/-- `%f`: one to six digits, greedy. -/
def pFrac (l : List Char) : Option (List Char) :=
  let ds := l.takeWhile Char.isDigit
  if ds.isEmpty then none else some (l.drop (min ds.length 6))

/-- The optional seconds group `(:?[0-5]\d(\.\d{1,6})?)?` of `%z`:
consumes the group greedily when it matches and otherwise consumes
nothing (the input after the minutes is returned unchanged). -/
def pTZSecondsOpt (rest3 : List Char) : List Char :=
  let afterColon :=
    match rest3 with
    | ':' :: r => r
    | r => r
  match afterColon with
  | s1 :: s2 :: rest4 =>
    if ('0' ≤ s1 && s1 ≤ '5') && s2.isDigit then
      match rest4 with
      | '.' :: r =>
        (match pFrac r with
         | some r2 => r2
         | none => '.' :: r)
      | r => r
    else rest3
  | _ => rest3

/-- `%z`: `[+-]\d\d:?[0-5]\d(:?[0-5]\d(\.\d{1,6})?)?` or a literal `Z`;
the `datetime` constructor additionally requires the hour part of the
offset to stay below 24. -/
def pTZ : List Char → Option (List Char)
  | 'Z' :: rest => some rest
  | sgn :: h1 :: h2 :: rest2 =>
    if (sgn = '+' || sgn = '-') && h1.isDigit && h2.isDigit
        && digitVal h1 * 10 + digitVal h2 ≤ 23 then
      let afterColon :=
        match rest2 with
        | ':' :: r => r
        | r => r
      match afterColon with
      | m1 :: m2 :: rest3 =>
        if ('0' ≤ m1 && m1 ≤ '5') && m2.isDigit then some (pTZSecondsOpt rest3)
        else none
      | _ => none
    else none
  | _ => none

/-- abbreviated month names for `%b` (C locale), case-insensitive. -/
def monthAbbrs : List (List Char × Nat) :=
  [("jan".toList, 1), ("feb".toList, 2), ("mar".toList, 3), ("apr".toList, 4),
   ("may".toList, 5), ("jun".toList, 6), ("jul".toList, 7), ("aug".toList, 8),
   ("sep".toList, 9), ("oct".toList, 10), ("nov".toList, 11), ("dec".toList, 12)]

/-- full month names for `%B` (C locale), case-insensitive. -/
def monthFulls : List (List Char × Nat) :=
  [("january".toList, 1), ("february".toList, 2), ("march".toList, 3),
   ("april".toList, 4), ("may".toList, 5), ("june".toList, 6),
   ("july".toList, 7), ("august".toList, 8), ("september".toList, 9),
   ("october".toList, 10), ("november".toList, 11), ("december".toList, 12)]

/-- Match one name of a name table at the front, case-insensitively. -/
def pName (table : List (List Char × Nat)) (l : List Char) : Option (Nat × List Char) :=
  let low := l.map Char.toLower
  (table.findSome? fun nv =>
    if nv.1.isPrefixOf low then some (nv.2, l.drop nv.1.length) else none)

/-- Gregorian leap-year rule, as used by `datetime`. -/
def leapYear (y : Nat) : Bool := (y % 4 = 0 && y % 100 ≠ 0) || y % 400 = 0

def daysInMonth (y m : Nat) : Nat :=
  if m = 2 then (if leapYear y then 29 else 28)
  else if m = 4 || m = 6 || m = 9 || m = 11 then 30
  else 31

/-- The `datetime(year, month, day)` constructor's validation. -/
def validYmd (y m d : Nat) : Bool :=
  1 ≤ y && y ≤ 9999 && 1 ≤ m && m ≤ 12 && 1 ≤ d && d ≤ daysInMonth y m

abbrev Ymd := Nat × Nat × Nat

/-- Succeed only when the whole input was consumed and the date is a
valid `datetime`. -/
def finishDate (y m d : Nat) (rest : List Char) : Option Ymd :=
  if rest.isEmpty && validYmd y m d then some (y, m, d) else none

/-- `'%Y-%m-%d'`. -/
def pfIsoDate (l : List Char) : Option Ymd := do
  let (y, r) ← pYear l
  let r ← pLit '-' r
  let (m, r) ← pMonth r
  let r ← pLit '-' r
  let (d, r) ← pDay r
  finishDate y m d r

/-- `'%m/%d/%Y'`. -/
def pfUS (l : List Char) : Option Ymd := do
  let (m, r) ← pMonth l
  let r ← pLit '/' r
  let (d, r) ← pDay r
  let r ← pLit '/' r
  let (y, r) ← pYear r
  finishDate y m d r

/-- `'%d/%m/%Y'`. -/
def pfEU (l : List Char) : Option Ymd := do
  let (d, r) ← pDay l
  let r ← pLit '/' r
  let (m, r) ← pMonth r
  let r ← pLit '/' r
  let (y, r) ← pYear r
  finishDate y m d r

/-- `'%Y/%m/%d'`. -/
def pfIsoSlash (l : List Char) : Option Ymd := do
  let (y, r) ← pYear l
  let r ← pLit '/' r
  let (m, r) ← pMonth r
  let r ← pLit '/' r
  let (d, r) ← pDay r
  finishDate y m d r

/-- `'%b %d, %Y'`. -/
def pfAbbrDY (l : List Char) : Option Ymd := do
  let (m, r) ← pName monthAbbrs l
  let r ← pSpaces r
  let (d, r) ← pDay r
  let r ← pLit ',' r
  let r ← pSpaces r
  let (y, r) ← pYear r
  finishDate y m d r

/-- `'%d %b %Y'`. -/
def pfDAbbrY (l : List Char) : Option Ymd := do
  let (d, r) ← pDay l
  let r ← pSpaces r
  let (m, r) ← pName monthAbbrs r
  let r ← pSpaces r
  let (y, r) ← pYear r
  finishDate y m d r

/-- `'%B %d, %Y'`. -/
def pfFullDY (l : List Char) : Option Ymd := do
  let (m, r) ← pName monthFulls l
  let r ← pSpaces r
  let (d, r) ← pDay r
  let r ← pLit ',' r
  let r ← pSpaces r
  let (y, r) ← pYear r
  finishDate y m d r

/-- The common `%H:%M:%S` tail; the parsed time is validated by the
`datetime` constructor (seconds 60/61 are rejected) and discarded. -/
def pTime (l : List Char) : Option (List Char) := do
  let (_, r) ← pHour l
  let r ← pLit ':' r
  let (mi, r) ← pMinute r
  let r ← pLit ':' r
  let (s, r) ← pSecond r
  if mi ≤ 59 && s ≤ 59 then some r else none

/-- The common `%Y-%m-%dT%H:%M:%S` head of the four ISO-with-time
formats; returns the date and the input remaining after the seconds. -/
def pIsoDateTime (l : List Char) : Option (Nat × Nat × Nat × List Char) := do
  let (y, r) ← pYear l
  let r ← pLit '-' r
  let (m, r) ← pMonth r
  let r ← pLit '-' r
  let (d, r) ← pDay r
  let r ← pLit 'T' r
  let r ← pTime r
  some (y, m, d, r)

/-- `'%Y-%m-%dT%H:%M:%S'`. -/
def pfIsoT (l : List Char) : Option Ymd := do
  let (y, m, d, r) ← pIsoDateTime l
  finishDate y m d r

/-- `'%Y-%m-%dT%H:%M:%S.%f'`. -/
def pfIsoTF (l : List Char) : Option Ymd := do
  let (y, m, d, r) ← pIsoDateTime l
  let r ← pLit '.' r
  let r ← pFrac r
  finishDate y m d r

/-- `'%Y-%m-%dT%H:%M:%S%z'`. -/
def pfIsoTZ (l : List Char) : Option Ymd := do
  let (y, m, d, r) ← pIsoDateTime l
  let r ← pTZ r
  finishDate y m d r

/-- `'%Y-%m-%dT%H:%M:%S.%f%z'`. -/
def pfIsoTFZ (l : List Char) : Option Ymd := do
  let (y, m, d, r) ← pIsoDateTime l
  let r ← pLit '.' r
  let r ← pFrac r
  let r ← pTZ r
  finishDate y m d r

/-- The format list of `normalize_date`, in source order. -/
def dateFormats : List (List Char → Option Ymd) :=
  [pfIsoDate, pfUS, pfEU, pfIsoSlash, pfAbbrDY, pfDAbbrY, pfFullDY,
   pfIsoT, pfIsoTF, pfIsoTZ, pfIsoTFZ]

/-- The format loop: first successful parse wins. -/
def firstParse (s : String) : Option Ymd :=
  dateFormats.findSome? (fun p => p s.toList)

/-- Zero-pad to two digits (`strftime` `%m`/`%d`). -/
def pad2 (n : Nat) : String := if n < 10 then "0" ++ toString n else toString n

/-- Zero-pad to four digits (`strftime` `%Y`; parsed years always have
four digits here, so the padding is only ever exercised below 1000 by
inputs that themselves carried leading zeros). -/
def pad4 (n : Nat) : String :=
  if n < 10 then "000" ++ toString n
  else if n < 100 then "00" ++ toString n
  else if n < 1000 then "0" ++ toString n
  else toString n

/-- `dt.strftime('%Y-%m-%d')`. -/
def fmtISO (y m d : Nat) : String := pad4 y ++ "-" ++ pad2 m ++ "-" ++ pad2 d

/-- The fallback shape test `re.match(r'^\d{4}-\d{2}-\d{2}$', s)`.
It only gates the warning print: both fallback branches return the
input verbatim. -/
def looksLikeIso (s : String) : Bool :=
  match s.toList with
  | [y1, y2, y3, y4, h1, m1, m2, h2, d1, d2] =>
    y1.isDigit && y2.isDigit && y3.isDigit && y4.isDigit && h1 = '-' &&
    m1.isDigit && m2.isDigit && h2 = '-' && d1.isDigit && d2.isDigit
  | _ => false

/-- `TransactionNormalizer.normalize_date`.  Empty input yields `""`
(`if not date_str`).  Otherwise the first matching format wins and is
rendered as ISO; when no format matches, the original string is
returned verbatim whether or not it `looksLikeIso` (that test only
selects the warning message), and no exception escapes. -/
def normalize_date (date_str : String) : String :=
  if date_str = "" then ""
  else
    match firstParse date_str with
    | some (y, m, d) => fmtISO y m d
    | none => date_str

/-! ## `TransactionNormalizer.generate_transaction_id` (utils.py 172-185)

`generate_transaction_id` builds `f"{date}|{amount}|{description}|{account_id}"`
and returns `hashlib.md5(raw_str.encode('utf-8')).hexdigest()`.  The
`amount` argument is a Python float rendered by the f-string; the
embedding takes that rendering as a string, so the four parameters
below are the four rendered fields.  MD5 is implemented bit-faithfully
over the UTF-8 bytes (32-bit words as `Nat` reduced mod `2^32`). -/

/-- UTF-8 encoding of one code point (`str.encode('utf-8')`). -/
def utf8Enc (c : Char) : List Nat :=
  let n := c.toNat
  if n < 128 then [n]
  else if n < 2048 then [192 + n / 64, 128 + n % 64]
  else if n < 65536 then [224 + n / 4096, 128 + (n / 64) % 64, 128 + n % 64]
  else [240 + n / 262144, 128 + (n / 4096) % 64, 128 + (n / 64) % 64, 128 + n % 64]

/-- UTF-8 bytes of a string. -/
def utf8Bytes (s : String) : List Nat := s.toList.flatMap utf8Enc

/-- 2^32, the word modulus of MD5. -/
def m32 : Nat := 4294967296

/-- 32-bit complement. -/
def not32 (x : Nat) : Nat := Nat.xor x 4294967295

/-- 32-bit left rotation (input assumed below `m32`). -/
def rotl32 (x n : Nat) : Nat :=
  Nat.lor ((x <<< n) % m32) (x >>> (32 - n))

/-- The MD5 sine-derived round constants `K[0..63]`. -/
def md5K : List Nat :=
  [0xd76aa478, 0xe8c7b756, 0x242070db, 0xc1bdceee, 0xf57c0faf, 0x4787c62a, 0xa8304613, 0xfd469501,
   0x698098d8, 0x8b44f7af, 0xffff5bb1, 0x895cd7be, 0x6b901122, 0xfd987193, 0xa679438e, 0x49b40821,
   0xf61e2562, 0xc040b340, 0x265e5a51, 0xe9b6c7aa, 0xd62f105d, 0x02441453, 0xd8a1e681, 0xe7d3fbc8,
   0x21e1cde6, 0xc33707d6, 0xf4d50d87, 0x455a14ed, 0xa9e3e905, 0xfcefa3f8, 0x676f02d9, 0x8d2a4c8a,
   0xfffa3942, 0x8771f681, 0x6d9d6122, 0xfde5380c, 0xa4beea44, 0x4bdecfa9, 0xf6bb4b60, 0xbebfbc70,
   0x289b7ec6, 0xeaa127fa, 0xd4ef3085, 0x04881d05, 0xd9d4d039, 0xe6db99e5, 0x1fa27cf8, 0xc4ac5665,
   0xf4292244, 0x432aff97, 0xab9423a7, 0xfc93a039, 0x655b59c3, 0x8f0ccc92, 0xffeff47d, 0x85845dd1,
   0x6fa87e4f, 0xfe2ce6e0, 0xa3014314, 0x4e0811a1, 0xf7537e82, 0xbd3af235, 0x2ad7d2bb, 0xeb86d391]

/-- The MD5 per-round shift amounts `s[0..63]`. -/
def md5S : List Nat :=
  [7, 12, 17, 22, 7, 12, 17, 22, 7, 12, 17, 22, 7, 12, 17, 22,
   5, 9, 14, 20, 5, 9, 14, 20, 5, 9, 14, 20, 5, 9, 14, 20,
   4, 11, 16, 23, 4, 11, 16, 23, 4, 11, 16, 23, 4, 11, 16, 23,
   6, 10, 15, 21, 6, 10, 15, 21, 6, 10, 15, 21, 6, 10, 15, 21]

/-- Eight little-endian bytes of the 64-bit message bit length. -/
def le64 (n : Nat) : List Nat :=
  [n % 256, n / 256 % 256, n / 65536 % 256, n / 16777216 % 256,
   n / 4294967296 % 256, n / 1099511627776 % 256,
   n / 281474976710656 % 256, n / 72057594037927936 % 256]

/-- MD5 padding: `0x80`, zeros to 56 mod 64, then the bit length. -/
def md5Pad (msg : List Nat) : List Nat :=
  let len := msg.length
  let zeros := (120 - (len + 1) % 64) % 64
  msg ++ 128 :: List.replicate zeros 0 ++ le64 (len * 8 % 18446744073709551616)

/-- Split the padded message into 64-byte chunks (the accumulator holds
the current partial chunk in reverse; padding makes the length a
multiple of 64, so the final partial chunk is empty). -/
def md5Chunks (acc : List Nat) : List Nat → List (List Nat)
  | [] => if acc.isEmpty then [] else [acc.reverse]
  | b :: bs =>
    if acc.length = 63 then (b :: acc).reverse :: md5Chunks [] bs
    else md5Chunks (b :: acc) bs

/-- The sixteen little-endian 32-bit words of one 64-byte chunk. -/
def md5Words (chunk : List Nat) : List Nat :=
  (List.range 16).map fun j =>
    chunk.getD (4 * j) 0 + 256 * chunk.getD (4 * j + 1) 0 +
    65536 * chunk.getD (4 * j + 2) 0 + 16777216 * chunk.getD (4 * j + 3) 0

/-- The MD5 round function for round `i`. -/
def md5F (i b c d : Nat) : Nat :=
  if i < 16 then Nat.lor (Nat.land b c) (Nat.land (not32 b) d)
  else if i < 32 then Nat.lor (Nat.land d b) (Nat.land (not32 d) c)
  else if i < 48 then Nat.xor b (Nat.xor c d)
  else Nat.xor c (Nat.lor b (not32 d))

/-- The message index used in round `i`. -/
def md5G (i : Nat) : Nat :=
  if i < 16 then i
  else if i < 32 then (5 * i + 1) % 16
  else if i < 48 then (3 * i + 5) % 16
  else (7 * i) % 16

/-- One MD5 round applied to the running state. -/
def md5Round (M : List Nat) (st : Nat × Nat × Nat × Nat) (i : Nat) :
    Nat × Nat × Nat × Nat :=
  let a := st.1
  let b := st.2.1
  let c := st.2.2.1
  let d := st.2.2.2
  let f := (md5F i b c d + a + md5K.getD i 0 + M.getD (md5G i) 0) % m32
  (d, (b + rotl32 f (md5S.getD i 0)) % m32, b, c)

/-- Process one 64-byte chunk. -/
def md5Chunk (st : Nat × Nat × Nat × Nat) (chunk : List Nat) :
    Nat × Nat × Nat × Nat :=
  let M := md5Words chunk
  let r := (List.range 64).foldl (md5Round M) st
  ((st.1 + r.1) % m32, (st.2.1 + r.2.1) % m32,
   (st.2.2.1 + r.2.2.1) % m32, (st.2.2.2 + r.2.2.2) % m32)

def hexDigit (n : Nat) : Char :=
  if n < 10 then Char.ofNat (48 + n) else Char.ofNat (87 + n)

/-- Two lowercase hex digits of one byte. -/
def byteHex (b : Nat) : List Char := [hexDigit (b / 16 % 16), hexDigit (b % 16)]

/-- Hex rendering of one state word, little-endian byte order. -/
def wordHexLE (w : Nat) : List Char :=
  byteHex (w % 256) ++ byteHex (w / 256 % 256) ++
  byteHex (w / 65536 % 256) ++ byteHex (w / 16777216 % 256)

/-- `hashlib.md5(bytes).hexdigest()`. -/
def md5Hex (msg : List Nat) : String :=
  let st := (md5Chunks [] (md5Pad msg)).foldl md5Chunk
    (1732584193, 4023233417, 2562383102, 271733878)
  String.mk (wordHexLE st.1 ++ wordHexLE st.2.1 ++ wordHexLE st.2.2.1 ++ wordHexLE st.2.2.2)

/-- The pre-hash string `f"{date}|{amount}|{description}|{account_id}"`. -/
def rawStr (date amount description account_id : String) : String :=
  date ++ "|" ++ amount ++ "|" ++ description ++ "|" ++ account_id

/-- `TransactionNormalizer.generate_transaction_id`.  `amount` is the
f-string rendering of the float argument. -/
def generate_transaction_id (date amount description account_id : String) : String :=
  md5Hex (utf8Bytes (rawStr date amount description account_id))

/-! ## First-occurrence deduplication helper

Used both for enumerating a Python `set`'s elements and for the
`groupby` key list of the reconciler. -/

def dedupAux {α : Type} [DecidableEq α] (seen : List α) : List α → List α
  | [] => []
  | k :: ks => if k ∈ seen then dedupAux seen ks else k :: dedupAux (k :: seen) ks

/-- The distinct elements of `l`, in first-occurrence order. -/
def dedup {α : Type} [DecidableEq α] (l : List α) : List α := dedupAux [] l

/-! ## `CSVWriter.write` (utils.py 203-247)

`write` computes `all_keys = set().union(*(d.keys() for d in transactions))`
and iterates that Python `set` to append the extra columns.  A `set`'s
iteration order is hash-based and unspecified, so the embedding takes
the enumeration `keyEnum` of `all_keys` as a parameter constrained to
be some ordering of the key set (`IsKeyEnum`).  A row dict is an
association list; a cell holds `none` for Python `None` and `some s`
for a value whose `str()` is `s`. -/

abbrev PyRow := List (String × Option String)

/-- `d.get(key)`: `none` when the key is absent or the value is `None`. -/
def pyRowGet (r : PyRow) (k : String) : Option String :=
  (List.lookup k r).join

/-- The keys of one row dict. -/
def pyRowKeys (r : PyRow) : List String := r.map Prod.fst

/-- Whether a cell value counts as non-empty:
`val is not None and str(val).strip() != "" and str(val).strip().lower() != "nan"`. -/
def cellActive (v : Option String) : Bool :=
  match v with
  | none => false
  | some s => pyStripStr s ≠ "" && lowerStr (pyStripStr s) ≠ "nan"

/-- Membership of `k` in `active_keys`: some row has a non-empty value. -/
def isActiveKey (ts : List PyRow) (k : String) : Bool :=
  ts.any fun r => cellActive (pyRowGet r k)

/-- Membership of `k` in `all_keys`. -/
def inAllKeys (ts : List PyRow) (k : String) : Bool :=
  ts.any fun r => decide (k ∈ pyRowKeys r)

/-- One canonical listing of `all_keys` (first-encounter order). -/
def allKeysCanon (ts : List PyRow) : List String :=
  dedup (ts.flatMap pyRowKeys)

/-- `keyEnum` is an admissible iteration order of the Python set
`all_keys`: some permutation of the key set. -/
def IsKeyEnum (ts : List PyRow) (keyEnum : List String) : Prop :=
  keyEnum.Perm (allKeysCanon ts)

/-- The `final_fieldnames` computation of `CSVWriter.write`; an absent
or empty `fieldnames` argument (both falsy) selects the
`sorted(list(active_keys))` branch. -/
def finalFieldnames (ts : List PyRow) (fieldnames : List String)
    (keyEnum : List String) : List String :=
  match fieldnames with
  | [] => (keyEnum.filter (isActiveKey ts)).mergeSort (fun a b => decide (a ≤ b))
  | _ =>
    fieldnames.filter (fun k => isActiveKey ts k) ++
      keyEnum.filter (fun k => !(decide (k ∈ fieldnames)) && isActiveKey ts k)

/-- The header row `CSVWriter.write` hands to `csv.DictWriter`
(`none` when `transactions` is empty and nothing is written; the body
rows are the input dicts restricted to this header by
`extrasaction='ignore'`). -/
def writeHeader (ts : List PyRow) (fieldnames : List String)
    (keyEnum : List String) : Option (List String) :=
  if ts.isEmpty then none else some (finalFieldnames ts fieldnames keyEnum)

/-! ## `Account`, `save_accounts` and the account-number heuristic
(models.py 211-355, base.py 263-307)

`Account` is embedded as a typed record of its eleven required CSV
fields (the open raw-data bag of bank extras is not needed by any
claim); balances are `ℚ`. -/

structure Account where
  uniqueAccountId : String
  accountName : String
  accountNumber : String
  currency : String
  type : String
  status : String
  currentBalance : ℚ
  createdAt : String
  statementBalance : ℚ
  remainingBalanceDue : ℚ
  paymentDueDate : String
deriving DecidableEq

/-- A serialized CSV cell: a string field or a numeric field. -/
inductive CsvVal where
  | s (v : String)
  | q (v : ℚ)
deriving DecidableEq

/-- The liability types of `Account.is_liability` (`AccountType` is a
`str` enum, so the comparison is against these strings). -/
def liabilityTypes : List String := ["Credit Card", "Line of Credit", "Mortgage", "Loan"]

/-- `Account.is_liability`: the `type` string is one of the liability
enum values. -/
def Account.is_liability (a : Account) : Bool := decide (a.type ∈ liabilityTypes)

/-- `Account.get_required_csv_row` / `to_csv_row`: the serialized row,
in source field order. -/
def Account.to_csv_row (a : Account) : List (String × CsvVal) :=
  [("Unique Account ID", CsvVal.s a.uniqueAccountId),
   ("Account Name", CsvVal.s a.accountName),
   ("Account Number", CsvVal.s a.accountNumber),
   ("Currency", CsvVal.s a.currency),
   ("Type", CsvVal.s a.type),
   ("Status", CsvVal.s a.status),
   ("Current Balance", CsvVal.q a.currentBalance),
   ("Created At", CsvVal.s a.createdAt),
   ("Statement Balance", CsvVal.q a.statementBalance),
   ("Remaining Balance Due", CsvVal.q a.remainingBalanceDue),
   ("Payment Due Date", CsvVal.s a.paymentDueDate)]

/-- The per-account mutation of `save_accounts`'s loop: negate a
positive balance on a liability account. -/
def fixLiability (acc : Account) : Account :=
  if acc.is_liability && acc.currentBalance > 0 then
    { acc with currentBalance := -acc.currentBalance }
  else acc

/-- `BankDownloader.save_accounts`: apply the liability-sign fix to
every account, then serialize each to its CSV row dict (the rows
handed to `CSVWriter.write`). -/
def save_accounts (accounts : List Account) : List (List (String × CsvVal)) :=
  (accounts.map fixLiability).map Account.to_csv_row

/-- `BankDownloader._is_better_account_number`.  `unique_id` defaults
to `None` in the source; `none` models that. -/
def _is_better_account_number (existing new : String) (unique_id : Option String) : Bool :=
  if new = "" || pyStripStr new = "" then false
  else if existing = "" || pyStripStr existing = "" then true
  else if (match unique_id with
           | some u => u ≠ "" && existing = u
           | none => false) then false
  else if existing.toList.contains '*' && !(new.toList.contains '*') then true
  else if !(new.toList.contains '*') && existing.toList.length < new.toList.length then true
  else false

/-! ## The transfer reconciler (link_transfers.py)

A loaded transaction row is reduced to the five fields the matching
logic reads.  `pdDate` is the result of `pd.to_datetime(Date,
errors='coerce')` (`none` = `NaT`), modelled by the normalized date
string; `amount` is `pd.to_numeric(Amount, errors='coerce')` (`none` =
`NaN`).  Rows are addressed by their position in the concatenated
frame, mirroring the `full_df.at[idx, ...]` updates. -/

structure TRow where
  uid : String
  acct : String
  pdDate : Option String
  amount : Option ℚ
  transferId : Option String
deriving DecidableEq

/-- `Amount > 0` (false for `NaN`, as in pandas). -/
def posAmt (r : TRow) : Bool :=
  match r.amount with
  | some q => decide (0 < q)
  | none => false

/-- `Amount < 0` (false for `NaN`). -/
def negAmt (r : TRow) : Bool :=
  match r.amount with
  | some q => decide (q < 0)
  | none => false

/-- `Amount != 0` (true for `NaN`, as in pandas). -/
def nonzeroAmt (r : TRow) : Bool :=
  match r.amount with
  | some q => decide (q ≠ 0)
  | none => true

/-- The candidate mask:
`Transfer Id isna & pd_date notna & Amount != 0`. -/
def isUnmatched (r : TRow) : Bool :=
  r.transferId.isNone && r.pdDate.isSome && nonzeroAmt r

/-- Rows that actually reach a `groupby` group: candidates whose
`abs_amount` key is not `NaN` (`groupby` drops null keys). -/
def isGrouped (r : TRow) : Bool := isUnmatched r && r.amount.isSome

/-- The `groupby` key `(pd_date, abs_amount)`. -/
def rowKey (r : TRow) : String × ℚ := (r.pdDate.getD "", |r.amount.getD 0|)

/-- The indexed candidate rows (index = position in the concatenated
frame, starting at `i`). -/
def candAux : Nat → List TRow → List (Nat × TRow)
  | _, [] => []
  | i, r :: rs => (if isGrouped r then [(i, r)] else []) ++ candAux (i + 1) rs

def candidatesOf (rows : List TRow) : List (Nat × TRow) := candAux 0 rows

/-- The distinct group keys.  (pandas iterates groups in sorted key
order; the claims below are independent of group order, since the
groups are disjoint and processed independently, so the keys are
enumerated in first-occurrence order.) -/
def groupKeys (cands : List (Nat × TRow)) : List (String × ℚ) :=
  dedup (cands.map fun p => rowKey p.2)

/-- The group of one key. -/
def groupOf (cands : List (Nat × TRow)) (k : String × ℚ) : List (Nat × TRow) :=
  cands.filter fun p => decide (rowKey p.2 = k)

/-- One line of `ambiguous_transfers.log`: date, amount, the two
candidate counts, and the two candidate ID lists. -/
structure AmbEntry where
  date : String
  amount : ℚ
  posCount : Nat
  negCount : Nat
  posIds : List String
  negIds : List String
deriving DecidableEq

/-- The per-group matching policy (link_transfers.py 110-155): returns
the `Transfer Id` assignments (frame index ↦ new `Transfer Id`), the
number of matches counted, and the ambiguous-log entry, if any. -/
def procGroup (k : String × ℚ) (g : List (Nat × TRow)) :
    List (Nat × String) × Nat × Option AmbEntry :=
  let pos := g.filter fun p => posAmt p.2
  let neg := g.filter fun p => negAmt p.2
  match pos, neg with
  | [], _ => ([], 0, none)
  | _, [] => ([], 0, none)
  | [p], [n] =>
    if p.2.acct ≠ n.2.acct then ([(p.1, n.2.uid), (n.1, p.2.uid)], 1, none)
    else ([], 0, none)
  | ps, ns =>
    ([], 0, some { date := k.1, amount := k.2, posCount := ps.length,
                   negCount := ns.length, posIds := ps.map fun p => p.2.uid,
                   negIds := ns.map fun p => p.2.uid })

/-- The group loop: concatenated assignments, total match count, and
the ambiguous entries. -/
def reconcilePass (cands : List (Nat × TRow)) :
    List (Nat × String) × Nat × List AmbEntry :=
  (groupKeys cands).foldl
    (fun acc k =>
      let r := procGroup k (groupOf cands k)
      (acc.1 ++ r.1, acc.2.1 + r.2.1, acc.2.2 ++ r.2.2.toList))
    ([], 0, [])

/-- Write the assignments back into the frame
(`full_df.at[idx, 'Transfer Id'] = ...`). -/
def applyLinksAux (asgn : List (Nat × String)) : Nat → List TRow → List TRow
  | _, [] => []
  | i, r :: rs =>
    (match List.lookup i asgn with
     | some t => { r with transferId := some t }
     | none => r) :: applyLinksAux asgn (i + 1) rs

def applyLinks (rows : List TRow) (asgn : List (Nat × String)) : List TRow :=
  applyLinksAux asgn 0 rows

/-- `--clear-transfers`: null out every `Transfer Id`. -/
def clearLinks (rows : List TRow) : List TRow :=
  rows.map fun r => { r with transferId := none }

/-- The matching phase of `link_transfers`: the updated frame (which
the persistence step writes back file by file, in original row order),
the `matches_found` count, and the ambiguous entries. -/
def link_transfers (clearTransfers : Bool) (rows : List TRow) :
    List TRow × Nat × List AmbEntry :=
  let rows0 := if clearTransfers then clearLinks rows else rows
  let res := reconcilePass (candidatesOf rows0)
  (applyLinks rows0 res.1, res.2.1, res.2.2)

/-- The amount-mismatch test of the report phase:
`abs(Amount + Target Amount) > 0.01` (false when either side is `NaN`,
as in pandas). -/
def amtMismatch (s t : TRow) : Bool :=
  match s.amount, t.amount with
  | some a, some b => decide (|a + b| > 1 / 100)
  | _, _ => false

/-- The inner merge of linked rows with their targets:
`Transfer Id == Target 'Unique Transaction ID'`. -/
def mergedPairs (rows : List TRow) : List (TRow × TRow) :=
  (rows.filter fun r => r.transferId.isSome).flatMap fun s =>
    (rows.filter fun t => decide (s.transferId = some t.uid)).map fun t => (s, t)

/-- The merged pairs that fail the cancellation check; the source
prints a warning exactly when this list is non-empty. -/
def mismatchedPairs (rows : List TRow) : List (TRow × TRow) :=
  (mergedPairs rows).filter fun st => amtMismatch st.1 st.2

/-- The `matched_transfers.csv` pairs: merged pairs that pass the
cancellation check, restricted to the negative (source) side.  The
report is computed from the frame without modifying it; the frame the
persistence step writes is untouched by reporting. -/
def matchedReport (rows : List TRow) : List (TRow × TRow) :=
  ((mergedPairs rows).filter fun st => !amtMismatch st.1 st.2).filter
    fun st => negAmt st.1

/-- The header order the specification's sentence asserts, written
from the spec's words for comparison with the source's set-iteration
order: `required_fields` filtered to active keys, then the remaining
active keys in first-encounter order (row order, then key order within
a row). -/
def specHeader (ts : List PyRow) (fieldnames : List String) : List String :=
  fieldnames.filter (fun k => isActiveKey ts k) ++
    (allKeysCanon ts).filter (fun k => !(decide (k ∈ fieldnames)) && isActiveKey ts k)

/-- The specification's demonstration liability account. -/
def demoCreditCard : Account :=
  { uniqueAccountId := "cc1", accountName := "Card", accountNumber := "1234",
    currency := "CAD", type := "Credit Card", status := "Active",
    currentBalance := 150, createdAt := "2024-01-01", statementBalance := 0,
    remainingBalanceDue := 0, paymentDueDate := "" }

/-- One full offline run: matching phase, then the two reports.  The
persistence step writes the first component (the post-matching frame)
back to the source files; the reporting phase is a pure function of
that frame and never modifies it. -/
def reconcileRun (clearTransfers : Bool) (rows : List TRow) :
    List TRow × Nat × List AmbEntry × List (TRow × TRow) × List (TRow × TRow) :=
  let r := link_transfers clearTransfers rows
  (r.1, r.2.1, r.2.2, matchedReport r.1, mismatchedPairs r.1)

/-- Demonstration rows for the reconciler claims. -/
def demoPosA : TRow :=
  { uid := "tA", acct := "A", pdDate := some "2024-03-01", amount := some 100,
    transferId := none }

def demoPosB : TRow :=
  { uid := "tB", acct := "B", pdDate := some "2024-03-01", amount := some 100,
    transferId := none }

def demoNegC : TRow :=
  { uid := "tC", acct := "C", pdDate := some "2024-03-01", amount := some (-100),
    transferId := none }

/-- A stale linked pair whose amounts do not cancel. -/
def staleNeg : TRow :=
  { uid := "sx", acct := "A", pdDate := some "2024-04-01", amount := some (-100),
    transferId := some "sy" }

def stalePos : TRow :=
  { uid := "sy", acct := "B", pdDate := some "2024-04-01", amount := some 90,
    transferId := some "sx" }

/-! ## Supporting lemmas for the payee engine -/

theorem matchRules_eq_find (rules : List PayeeRule) (cleaned : String) :
    matchRules rules cleaned =
      (match rules.find? (ruleHits cleaned) with
       | some r => r.name
       | none => cleaned) := by
  induction rules with
  | nil => rfl
  | cons r rs ih =>
    by_cases h : ruleHits cleaned r = true
    · simp [matchRules, List.find?, h]
    · have h' : ruleHits cleaned r = false := by
        cases hr : ruleHits cleaned r
        · rfl
        · exact absurd hr h
      simp [matchRules, List.find?, h', ih]

theorem subIn_nil (l : List Char) : subIn [] l = true := by
  cases l <;> simp [subIn, List.tails, List.isPrefixOf]

theorem keywordHit_empty (cleaned : String) : keywordHit cleaned "" = true := by
  have h : (lowerStr "").toList = [] := by decide
  simp only [keywordHit, pyIn, h, subIn_nil]

theorem ruleHits_of_empty_keyword (r : PayeeRule) (cleaned : String)
    (h : "" ∈ r.keywords) : ruleHits cleaned r = true := by
  unfold ruleHits
  have : r.keywords.any (keywordHit cleaned) = true :=
    List.any_eq_true.mpr ⟨"", h, keywordHit_empty cleaned⟩
  simp [this]

/-- C4: `normalize_payee` cleans the input, then walks the loaded rule
list in order, a rule firing when any of its keywords matches as a
case-insensitive substring or any of its regexes searches successfully
(keywords are checked before regexes inside a rule, and either kind of
hit returns that same rule's canonical name); the first rule that
fires wins and the cleaned input is returned unchanged when no rule
fires.  In particular, with the rules `Coffee Co` (keyword "coffee")
before `Generic` (keyword "co"), the description "Coffee Co Purchase"
resolves to "Coffee Co", not "Generic". -/
theorem claim_C4_payee_first_match (rules : List PayeeRule) (raw : String)
    (h : raw ≠ "") :
    normalize_payee rules raw =
      (match rules.find? (ruleHits (clean_description raw)) with
       | some r => r.name
       | none => clean_description raw) ∧
    normalize_payee [coffeeRule, genericRule] "Coffee Co Purchase" = "Coffee Co" := by
  constructor
  · unfold normalize_payee
    rw [if_neg h]
    exact matchRules_eq_find rules (clean_description raw)
  · decide

theorem claim_C4_payee_first_match_witness :
    normalize_payee [coffeeRule, genericRule] "Coffee Co Purchase" = "Coffee Co" :=
  (claim_C4_payee_first_match [coffeeRule, genericRule] "Coffee Co Purchase"
    (by decide)).2

/-- C10: a loaded rule whose keyword list contains the empty string
matches every non-empty input unconditionally (the empty string is a
substring of every cleaned description), so such a rule's name is
returned for every non-empty input that no earlier rule matches,
shadowing all later rules and the no-match fallback. -/
theorem claim_C10_empty_keyword_shadows (rules₁ rules₂ : List PayeeRule)
    (r : PayeeRule) (raw : String) (hraw : raw ≠ "")
    (hkw : "" ∈ r.keywords)
    (hearlier : ∀ r' ∈ rules₁, ruleHits (clean_description raw) r' = false) :
    normalize_payee (rules₁ ++ r :: rules₂) raw = r.name := by
  unfold normalize_payee
  rw [if_neg hraw]
  induction rules₁ with
  | nil =>
    have hr := ruleHits_of_empty_keyword r (clean_description raw) hkw
    simp [matchRules, hr]
  | cons r0 rs ih =>
    have h0 : ruleHits (clean_description raw) r0 = false :=
      hearlier r0 (by simp)
    simp only [List.cons_append, matchRules, h0, Bool.false_eq_true, if_false]
    exact ih (fun r' hr' => hearlier r' (by simp [hr']))

theorem claim_C10_empty_keyword_shadows_witness :
    normalize_payee
      [{ name := "First", keywords := ["zzz"], regexes := [] },
       { name := "CatchAll", keywords := [""], regexes := [] },
       { name := "Later", keywords := ["hello"], regexes := [] }] "hello" = "CatchAll" :=
  claim_C10_empty_keyword_shadows
    [{ name := "First", keywords := ["zzz"], regexes := [] }]
    [{ name := "Later", keywords := ["hello"], regexes := [] }]
    { name := "CatchAll", keywords := [""], regexes := [] }
    "hello" (by decide) (by decide)
    (by
      intro r' hr'
      simp only [List.mem_singleton] at hr'
      subst hr'
      decide)

/-- C9: `normalize_date` is a total function (the source wraps the
whole body in a catch-all handler, so no exception escapes): empty
input yields the empty string; otherwise the ordered format list is
tried and the first successful parse is rendered as `YYYY-MM-DD`
(`firstParse` is by definition the ordered first-success scan of
`dateFormats`); when no format matches, the input is returned verbatim
— both when it already has the `^\d{4}-\d{2}-\d{2}$` shape (which only
suppresses the warning) and for every other unparseable input. -/
theorem claim_C9_normalize_date_graceful (s : String) (y m d : Nat) :
    normalize_date "" = "" ∧
    firstParse s = dateFormats.findSome? (fun p => p s.toList) ∧
    (s ≠ "" → firstParse s = some (y, m, d) → normalize_date s = fmtISO y m d) ∧
    (s ≠ "" → firstParse s = none → normalize_date s = s) := by
  refine ⟨rfl, rfl, ?_, ?_⟩
  · intro h1 h2
    unfold normalize_date
    rw [if_neg h1, h2]
  · intro h1 h2
    unfold normalize_date
    rw [if_neg h1, h2]

set_option maxRecDepth 4000 in
theorem claim_C9_normalize_date_graceful_witness :
    normalize_date "03/15/2024" = "2024-03-15" ∧
    normalize_date "2024-02-30" = "2024-02-30" := by
  constructor
  · have h := (claim_C9_normalize_date_graceful "03/15/2024" 2024 3 15).2.2.1
      (by decide) (by decide)
    rw [h]
    decide
  · exact (claim_C9_normalize_date_graceful "2024-02-30" 0 0 0).2.2.2
      (by decide) (by decide)

/-- Splitting at the first separator: a pipe-delimited concatenation
with pipe-free heads determines the head and the tail. -/
theorem append_pipe_split (xs : List Char) :
    ∀ xs' ys ys' : List Char, ('|' ∈ xs → False) → ('|' ∈ xs' → False) →
    xs ++ '|' :: ys = xs' ++ '|' :: ys' → xs = xs' ∧ ys = ys' := by
  induction xs with
  | nil =>
    intro xs' ys ys' _ hx' heq
    cases xs' with
    | nil => simpa using heq
    | cons b bs =>
      exfalso
      have hb : b = '|' := by
        have := congrArg (fun l => l.head?) heq
        simpa using this.symm
      exact hx' (by simp [hb])
  | cons a as ih =>
    intro xs' ys ys' hx hx' heq
    cases xs' with
    | nil =>
      exfalso
      have ha : a = '|' := by
        have := congrArg (fun l => l.head?) heq
        simpa using this
      exact hx (by simp [ha])
    | cons b bs =>
      have hab : a = b ∧ as ++ '|' :: ys = bs ++ '|' :: ys' := by
        have h1 := congrArg (fun l => l.head?) heq
        have h2 := congrArg (fun l => l.tail) heq
        simp at h1 h2
        exact ⟨h1, h2⟩
      have htl := ih bs ys ys' (fun h => hx (List.mem_cons_of_mem _ h))
        (fun h => hx' (List.mem_cons_of_mem _ h)) hab.2
      exact ⟨by rw [hab.1, htl.1], htl.2⟩

/-- No `'|'` occurs in the string (each argument's f-string rendering
is separator-free). -/
def noPipe (s : String) : Bool := decide ('|' ∉ s.toList)

theorem noPipe_not_mem {s : String} (h : noPipe s = true) : '|' ∈ s.data → False := by
  intro hm
  exact (of_decide_eq_true h) hm

/-- The character list of `rawStr`, right-nested. -/
theorem rawStr_data (d a s c : String) :
    (rawStr d a s c).data =
      d.data ++ '|' :: (a.data ++ '|' :: (s.data ++ '|' :: c.data)) := by
  unfold rawStr
  simp [String.data_append, List.append_assoc]

/-- `rawStr` is injective on separator-free arguments. -/
theorem rawStr_inj (d1 a1 s1 c1 d2 a2 s2 c2 : String)
    (hd1 : noPipe d1 = true) (ha1 : noPipe a1 = true) (hs1 : noPipe s1 = true)
    (hd2 : noPipe d2 = true) (ha2 : noPipe a2 = true) (hs2 : noPipe s2 = true)
    (heq : rawStr d1 a1 s1 c1 = rawStr d2 a2 s2 c2) :
    d1 = d2 ∧ a1 = a2 ∧ s1 = s2 ∧ c1 = c2 := by
  have hdata : (rawStr d1 a1 s1 c1).data = (rawStr d2 a2 s2 c2).data :=
    congrArg String.data heq
  rw [rawStr_data, rawStr_data] at hdata
  have h1 := append_pipe_split d1.data d2.data _ _
    (noPipe_not_mem hd1) (noPipe_not_mem hd2) hdata
  have h2 := append_pipe_split a1.data a2.data _ _
    (noPipe_not_mem ha1) (noPipe_not_mem ha2) h1.2
  have h3 := append_pipe_split s1.data s2.data _ _
    (noPipe_not_mem hs1) (noPipe_not_mem hs2) h2.2
  exact ⟨String.ext h1.1, String.ext h2.1, String.ext h3.1, String.ext h3.2⟩

/-- C3 (counterexample): `generate_transaction_id` is *not* injective
over all argument tuples — the four fields are joined with the `"|"`
separator before hashing, so a description containing `"|"` can shift
content into the account-id field: the two distinct argument tuples
`("2024-01-01", 1.0, "a|b", "c")` and `("2024-01-01", 1.0, "a", "b|c")`
produce the same pre-hash string and therefore the same ID. -/
theorem claim_C3_counterexample :
    (("2024-01-01", "1.0", "a|b", "c") : String × String × String × String) ≠
      ("2024-01-01", "1.0", "a", "b|c") ∧
    generate_transaction_id "2024-01-01" "1.0" "a|b" "c" =
      generate_transaction_id "2024-01-01" "1.0" "a" "b|c" := by
  constructor
  · decide
  · have h : rawStr "2024-01-01" "1.0" "a|b" "c" =
        rawStr "2024-01-01" "1.0" "a" "b|c" := by decide
    unfold generate_transaction_id
    rw [h]

/-- C3 (amended): `generate_transaction_id` is deterministic — it is a
pure function of its four (rendered) arguments, and its value depends
only on the pre-hash string `date|amount|description|account_id` — and
argument tuples whose fields are free of the `'|'` separator yield
distinct pre-hash strings whenever the tuples differ, so IDs of
separator-free tuples can only coincide through an MD5 digest
collision on distinct pre-hash strings. -/
theorem claim_C3_amended_determinism_and_injectivity
    (d1 a1 s1 c1 d2 a2 s2 c2 : String)
    (hd1 : noPipe d1 = true) (ha1 : noPipe a1 = true) (hs1 : noPipe s1 = true)
    (hd2 : noPipe d2 = true) (ha2 : noPipe a2 = true) (hs2 : noPipe s2 = true) :
    generate_transaction_id d1 a1 s1 c1 = generate_transaction_id d1 a1 s1 c1 ∧
    (rawStr d1 a1 s1 c1 = rawStr d2 a2 s2 c2 →
      generate_transaction_id d1 a1 s1 c1 = generate_transaction_id d2 a2 s2 c2) ∧
    ((d1, a1, s1, c1) ≠ ((d2, a2, s2, c2) : String × String × String × String) →
      rawStr d1 a1 s1 c1 ≠ rawStr d2 a2 s2 c2) := by
  refine ⟨rfl, ?_, ?_⟩
  · intro h
    unfold generate_transaction_id
    rw [h]
  · intro hne heq
    have h := rawStr_inj d1 a1 s1 c1 d2 a2 s2 c2 hd1 ha1 hs1 hd2 ha2 hs2 heq
    exact hne (by rw [h.1, h.2.1, h.2.2.1, h.2.2.2])

theorem claim_C3_amended_witness :
    rawStr "2024-01-01" "1.0" "desc" "acct1" ≠ rawStr "2024-01-01" "1.0" "desc" "acct2" :=
  (claim_C3_amended_determinism_and_injectivity
    "2024-01-01" "1.0" "desc" "acct1" "2024-01-01" "1.0" "desc" "acct2"
    (by decide) (by decide) (by decide) (by decide) (by decide) (by decide)).2.2
    (by decide)

theorem pyStripStr_ne_empty {s : String} (h : pyStripStr s ≠ "") : s ≠ "" := by
  intro hs
  exact h (by rw [hs]; rfl)

/-- C7: the decision table of `_is_better_account_number`, in the
source's guard order: an empty (or whitespace-only) `new` is never
better; a non-empty `new` beats an empty `existing`; an `existing`
equal to the account's canonical unique-id string is never replaced
(even by a longer or unmasked `new`); a masked `existing` is beaten by
an unmasked `new`; with `new` unmasked, a strictly longer `new` beats
a shorter unmasked `existing`; every other case keeps `existing`. -/
theorem claim_C7_better_account_number (existing new : String) (u : Option String) :
    (pyStripStr new = "" → _is_better_account_number existing new u = false) ∧
    (pyStripStr new ≠ "" → pyStripStr existing = "" →
      _is_better_account_number existing new u = true) ∧
    (pyStripStr existing ≠ "" →
      _is_better_account_number existing new (some existing) = false) ∧
    (pyStripStr new ≠ "" → pyStripStr existing ≠ "" →
      (∀ v, u = some v → existing ≠ v) →
      '*' ∈ existing.data → '*' ∉ new.data →
      _is_better_account_number existing new u = true) ∧
    (pyStripStr new ≠ "" → pyStripStr existing ≠ "" →
      (∀ v, u = some v → existing ≠ v) →
      '*' ∉ new.data → existing.length < new.length →
      _is_better_account_number existing new u = true) ∧
    (pyStripStr new ≠ "" → pyStripStr existing ≠ "" →
      (∀ v, u = some v → existing ≠ v) →
      ('*' ∈ new.data ∨
        ('*' ∉ new.data ∧ '*' ∉ existing.data ∧ new.length ≤ existing.length)) →
      _is_better_account_number existing new u = false) := by
  refine ⟨?_, ?_, ?_, ?_, ?_, ?_⟩
  · intro h1
    unfold _is_better_account_number
    simp [h1]
  · intro h1 h2
    unfold _is_better_account_number
    simp [h1, h2, pyStripStr_ne_empty h1]
  · intro h2
    unfold _is_better_account_number
    by_cases h1 : pyStripStr new = ""
    · simp [h1]
    · simp [h1, h2, pyStripStr_ne_empty h1, pyStripStr_ne_empty h2]
  · intro h1 h2 hu hme hmn
    unfold _is_better_account_number
    cases u with
    | none =>
      simp [h1, h2, pyStripStr_ne_empty h1, pyStripStr_ne_empty h2, hme, hmn]
    | some v =>
      have hv := hu v rfl
      simp [h1, h2, pyStripStr_ne_empty h1, pyStripStr_ne_empty h2, hv, hme, hmn]
  · intro h1 h2 hu hmn hlen
    unfold _is_better_account_number
    cases u with
    | none =>
      simp [h1, h2, pyStripStr_ne_empty h1, pyStripStr_ne_empty h2, hmn, hlen]
    | some v =>
      have hv := hu v rfl
      simp [h1, h2, pyStripStr_ne_empty h1, pyStripStr_ne_empty h2, hv, hmn, hlen]
  · intro h1 h2 hu hfail
    unfold _is_better_account_number
    rcases hfail with hm | ⟨hmn, hme, hlen⟩
    · cases u with
      | none =>
        simp [h1, h2, pyStripStr_ne_empty h1, pyStripStr_ne_empty h2, hm]
      | some v =>
        have hv := hu v rfl
        simp [h1, h2, pyStripStr_ne_empty h1, pyStripStr_ne_empty h2, hv, hm]
    · cases u with
      | none =>
        simp [h1, h2, pyStripStr_ne_empty h1, pyStripStr_ne_empty h2, hme, hmn,
          Nat.not_lt.mpr hlen]
      | some v =>
        have hv := hu v rfl
        simp [h1, h2, pyStripStr_ne_empty h1, pyStripStr_ne_empty h2, hv, hme, hmn,
          Nat.not_lt.mpr hlen]

theorem claim_C7_better_account_number_witness :
    _is_better_account_number "" "123456" none = true ∧
    _is_better_account_number "RBC-1234" "123456789" (some "RBC-1234") = false ∧
    _is_better_account_number "12**56" "123456" none = true ∧
    _is_better_account_number "1234" "123456" none = true ∧
    _is_better_account_number "123456" "1234" none = false ∧
    _is_better_account_number "1234" "" none = false := by
  refine ⟨?_, ?_, ?_, ?_, ?_, ?_⟩
  · exact (claim_C7_better_account_number "" "123456" none).2.1 (by decide) (by decide)
  · exact (claim_C7_better_account_number "RBC-1234" "123456789" (some "RBC-1234")).2.2.1
      (by decide)
  · exact (claim_C7_better_account_number "12**56" "123456" none).2.2.2.1
      (by decide) (by decide) (fun v hv => by cases hv) (by decide) (by decide)
  · exact (claim_C7_better_account_number "1234" "123456" none).2.2.2.2.1
      (by decide) (by decide) (fun v hv => by cases hv) (by decide) (by decide)
  · exact (claim_C7_better_account_number "123456" "1234" none).2.2.2.2.2
      (by decide) (by decide) (fun v hv => by cases hv)
      (Or.inr ⟨by decide, by decide, by decide⟩)
  · exact (claim_C7_better_account_number "1234" "" none).1 (by decide)

theorem lookup_type_to_csv_row (a : Account) :
    List.lookup "Type" a.to_csv_row = some (CsvVal.s a.type) := rfl

theorem lookup_balance_to_csv_row (a : Account) :
    List.lookup "Current Balance" a.to_csv_row = some (CsvVal.q a.currentBalance) := rfl

theorem fixLiability_type (a : Account) : (fixLiability a).type = a.type := by
  unfold fixLiability
  by_cases hc : (a.is_liability && decide (a.currentBalance > 0)) = true
  · rw [if_pos hc]
  · rw [if_neg hc]

theorem fixLiability_balance_nonpos (a : Account) (h : a.is_liability = true) :
    (fixLiability a).currentBalance ≤ 0 := by
  unfold fixLiability
  by_cases hc : (a.is_liability && decide (a.currentBalance > 0)) = true
  · rw [if_pos hc]
    have hpos : a.currentBalance > 0 :=
      of_decide_eq_true ((Bool.and_eq_true _ _).mp hc).2
    show -a.currentBalance ≤ 0
    linarith
  · rw [if_neg hc]
    show a.currentBalance ≤ 0
    by_cases hp : a.currentBalance > 0
    · exfalso
      exact hc (by rw [h, decide_eq_true hp]; rfl)
    · linarith [not_lt.mp hp]

/-- C6: every row `save_accounts` serializes for an account of a
liability type (Credit Card, Line of Credit, Mortgage, Loan) carries
`Current Balance ≤ 0`: a positive `current_balance` is negated before
writing, a non-positive one is left alone.  In particular the
demonstration account with type `Credit Card` and balance `150` is
serialized with `Current Balance = -150`. -/
theorem claim_C6_liability_balance_nonpositive (accounts : List Account)
    (row : List (String × CsvVal)) (t : String)
    (hrow : row ∈ save_accounts accounts)
    (ht : List.lookup "Type" row = some (CsvVal.s t))
    (hliab : t ∈ liabilityTypes) :
    (∃ b : ℚ, List.lookup "Current Balance" row = some (CsvVal.q b) ∧ b ≤ 0) ∧
    List.lookup "Current Balance" ((save_accounts [demoCreditCard]).getD 0 []) =
      some (CsvVal.q (-150)) := by
  refine ⟨?_, by decide⟩
  unfold save_accounts at hrow
  rcases List.mem_map.mp hrow with ⟨a', ha', rfl⟩
  rcases List.mem_map.mp ha' with ⟨a, _, rfl⟩
  rw [lookup_type_to_csv_row] at ht
  have htype : (fixLiability a).type = t := CsvVal.s.inj (Option.some.inj ht)
  have hta : t = a.type := by rw [← htype, fixLiability_type]
  have hl : a.is_liability = true := decide_eq_true (hta ▸ hliab)
  exact ⟨(fixLiability a).currentBalance, lookup_balance_to_csv_row _,
    fixLiability_balance_nonpos a hl⟩

theorem claim_C6_liability_balance_nonpositive_witness :
    ∃ b : ℚ, List.lookup "Current Balance" ((save_accounts [demoCreditCard]).getD 0 []) =
      some (CsvVal.q b) ∧ b ≤ 0 :=
  (claim_C6_liability_balance_nonpositive [demoCreditCard]
    ((save_accounts [demoCreditCard]).getD 0 []) "Credit Card"
    (by decide) (by decide) (by decide)).1

theorem mem_dedupAux {α : Type} [DecidableEq α] (l : List α) :
    ∀ (seen : List α) (x : α), x ∈ dedupAux seen l ↔ x ∈ l ∧ x ∉ seen := by
  induction l with
  | nil => intro seen x; simp [dedupAux]
  | cons k ks ih =>
    intro seen x
    by_cases h : k ∈ seen
    · rw [dedupAux, if_pos h, ih]
      constructor
      · rintro ⟨hx, hs⟩
        exact ⟨List.mem_cons_of_mem _ hx, hs⟩
      · rintro ⟨hx, hs⟩
        rcases List.mem_cons.mp hx with hk | hk
        · exact absurd (hk ▸ h) hs
        · exact ⟨hk, hs⟩
    · rw [dedupAux, if_neg h]
      constructor
      · intro hx
        rcases List.mem_cons.mp hx with hk | hk
        · exact ⟨hk ▸ List.mem_cons_self _ _, hk ▸ h⟩
        · have := (ih (k :: seen) x).mp hk
          exact ⟨List.mem_cons_of_mem _ this.1,
            fun hs => this.2 (List.mem_cons_of_mem _ hs)⟩
      · rintro ⟨hx, hs⟩
        rcases List.mem_cons.mp hx with hk | hk
        · exact hk ▸ List.mem_cons_self _ _
        · by_cases hxk : x = k
          · exact hxk ▸ List.mem_cons_self _ _
          · exact List.mem_cons_of_mem _ ((ih (k :: seen) x).mpr
              ⟨hk, fun hm => (List.mem_cons.mp hm).elim hxk hs⟩)

theorem mem_dedup {α : Type} [DecidableEq α] (l : List α) (x : α) :
    x ∈ dedup l ↔ x ∈ l := by
  simp [dedup, mem_dedupAux]

theorem lookup_some_mem_keys {α β : Type} [BEq α] [LawfulBEq α]
    (l : List (α × β)) (a : α) (b : β) (h : List.lookup a l = some b) :
    a ∈ l.map Prod.fst := by
  induction l with
  | nil => simp [List.lookup] at h
  | cons p ps ih =>
    rw [List.lookup] at h
    by_cases hb : (a == p.1) = true
    · have := eq_of_beq hb
      simp [this]
    · have hb' : (a == p.1) = false := Bool.of_not_eq_true hb
      rw [hb'] at h
      exact List.mem_cons_of_mem _ (ih h)

theorem isActiveKey_mem_canon (ts : List PyRow) (k : String)
    (h : isActiveKey ts k = true) : k ∈ allKeysCanon ts := by
  rcases List.any_eq_true.mp h with ⟨r, hr, hcell⟩
  have hl : ∃ s, pyRowGet r k = some s := by
    unfold cellActive at hcell
    cases hg : pyRowGet r k with
    | none => rw [hg] at hcell; cases hcell
    | some s => exact ⟨s, rfl⟩
  rcases hl with ⟨s, hs⟩
  have hk : k ∈ pyRowKeys r := by
    unfold pyRowGet at hs
    cases hlk : List.lookup k r with
    | none => rw [hlk] at hs; cases hs
    | some v => exact lookup_some_mem_keys r k v hlk
  rw [allKeysCanon, mem_dedup]
  exact List.mem_flatMap.mpr ⟨r, hr, hk⟩

/-- C5 (counterexample): the claim's "remaining active keys in
encounter order" is not guaranteed by the code — the extra columns are
produced by iterating the Python *set* `all_keys`, whose order is
hash-based and unspecified.  Under the admissible set enumeration
`["B", "A"]` of the key set `{A, B}` (first encountered in the order
A, B), the written header tail is `B, A`, not the encounter order
`A, B` the claim requires. -/
theorem claim_C5_counterexample :
    IsKeyEnum [[("A", some "1"), ("B", some "2")]] ["B", "A"] ∧
    writeHeader [[("A", some "1"), ("B", some "2")]] ["Z"] ["B", "A"] =
      some ["B", "A"] ∧
    specHeader [[("A", some "1"), ("B", some "2")]] ["Z"] = ["A", "B"] ∧
    (["B", "A"] : List String) ≠ ["A", "B"] := by
  refine ⟨?_, by decide, by decide, by decide⟩
  unfold IsKeyEnum
  decide

/-- C5 (amended): for a non-empty record list and a provided (truthy)
`required_fields`, and any admissible iteration order `e` of the key
set, the written header is `required_fields` filtered to active keys
followed by the remaining active keys in the set's iteration order
(unspecified by the code); as a set, the header is exactly the active
keys — every key that is non-empty in some row appears, and every key
that is empty/null/"nan" in all rows is absent. -/
theorem claim_C5_amended_active_columns (ts : List PyRow)
    (fieldnames : List String) (e : List String)
    (hts : ts ≠ []) (hfn : fieldnames ≠ []) (he : IsKeyEnum ts e) :
    writeHeader ts fieldnames e =
      some (fieldnames.filter (fun k => isActiveKey ts k) ++
        e.filter (fun k => !(decide (k ∈ fieldnames)) && isActiveKey ts k)) ∧
    ∀ k, k ∈ finalFieldnames ts fieldnames e ↔ isActiveKey ts k = true := by
  have hmem_e : ∀ k, isActiveKey ts k = true → k ∈ e := by
    intro k hk
    exact (List.Perm.mem_iff he).mpr (isActiveKey_mem_canon ts k hk)
  have hff : finalFieldnames ts fieldnames e =
      fieldnames.filter (fun k => isActiveKey ts k) ++
        e.filter (fun k => !(decide (k ∈ fieldnames)) && isActiveKey ts k) := by
    cases fieldnames with
    | nil => exact absurd rfl hfn
    | cons f fs => rfl
  constructor
  · unfold writeHeader
    rw [if_neg (by simpa using hts), hff]
  · intro k
    rw [hff]
    constructor
    · intro hk
      rcases List.mem_append.mp hk with hk1 | hk2
      · exact (List.mem_filter.mp hk1).2
      · have := (List.mem_filter.mp hk2).2
        exact ((Bool.and_eq_true _ _).mp this).2
    · intro hk
      by_cases hf : k ∈ fieldnames
      · exact List.mem_append.mpr (Or.inl (List.mem_filter.mpr ⟨hf, hk⟩))
      · refine List.mem_append.mpr (Or.inr (List.mem_filter.mpr
          ⟨hmem_e k hk, ?_⟩))
        rw [hk, decide_eq_false hf]
        rfl

theorem claim_C5_amended_active_columns_witness :
    writeHeader [[("A", some "1"), ("B", none), ("C", some " nan ")]]
      ["A"] ["C", "A", "B"] = some ["A"] := by
  have h := claim_C5_amended_active_columns
    [[("A", some "1"), ("B", none), ("C", some " nan ")]] ["A"] ["C", "A", "B"]
    (by decide) (by decide) (by
      unfold IsKeyEnum
      decide)
  rw [h.1]
  decide

theorem foldl_triple {K A B : Type} (f : K → List A × Nat × List B) :
    ∀ (ks : List K) (acc : List A × Nat × List B),
      ks.foldl (fun acc k => (acc.1 ++ (f k).1, acc.2.1 + (f k).2.1,
        acc.2.2 ++ (f k).2.2)) acc =
      (acc.1 ++ ks.flatMap (fun k => (f k).1),
       acc.2.1 + (ks.map (fun k => (f k).2.1)).sum,
       acc.2.2 ++ ks.flatMap (fun k => (f k).2.2)) := by
  intro ks
  induction ks with
  | nil => intro acc; simp
  | cons k ks ih =>
    intro acc
    rw [List.foldl_cons, ih]
    simp [List.append_assoc, Nat.add_assoc]

/-- The group loop, flattened: concatenated assignments, summed match
counts, concatenated ambiguous entries. -/
theorem reconcilePass_eq (cands : List (Nat × TRow)) :
    reconcilePass cands =
      ((groupKeys cands).flatMap (fun k => (procGroup k (groupOf cands k)).1),
       ((groupKeys cands).map (fun k => (procGroup k (groupOf cands k)).2.1)).sum,
       (groupKeys cands).flatMap (fun k => (procGroup k (groupOf cands k)).2.2.toList)) := by
  have h := foldl_triple
    (fun k => ((procGroup k (groupOf cands k)).1,
      (procGroup k (groupOf cands k)).2.1,
      (procGroup k (groupOf cands k)).2.2.toList))
    (groupKeys cands) ([], 0, [])
  simpa [reconcilePass] using h

/-- The per-group dichotomy: a group either links exactly one
positive/negative pair across distinct accounts (one match, the two
symmetric assignments, no ambiguity entry), or it assigns nothing and
counts nothing. -/
theorem procGroup_cases (k : String × ℚ) (g : List (Nat × TRow)) :
    (∃ p n, g.filter (fun q => posAmt q.2) = [p] ∧
      g.filter (fun q => negAmt q.2) = [n] ∧ p.2.acct ≠ n.2.acct ∧
      procGroup k g = ([(p.1, n.2.uid), (n.1, p.2.uid)], 1, none)) ∨
    ((procGroup k g).1 = [] ∧ (procGroup k g).2.1 = 0) := by
  rcases hp : g.filter (fun q => posAmt q.2) with _ | ⟨p, ps⟩
  · right
    simp [procGroup, hp]
  rcases hn : g.filter (fun q => negAmt q.2) with _ | ⟨n, ns⟩
  · right
    simp [procGroup, hp, hn]
  rcases ps with _ | ⟨p2, ps2⟩
  · rcases ns with _ | ⟨n2, ns2⟩
    · by_cases hacct : p.2.acct ≠ n.2.acct
      · left
        exact ⟨p, n, hp, hn, hacct, by simp [procGroup, hp, hn, hacct]⟩
      · right
        simp [procGroup, hp, hn, hacct]
    · right
      simp [procGroup, hp, hn]
  · right
    simp [procGroup, hp, hn]

/-- C1 (counterexample): the claim's ambiguous branch is stated for
every group with "more than one positive or more than one negative
member", but the source skips any group with zero members on either
side *before* the ambiguity check (`if pos_count == 0 or neg_count ==
0: continue`).  A group of two same-day, same-amount deposits (two
positives, zero negatives) has more than one positive member, yet the
code records nothing in the ambiguous-transfers report. -/
theorem claim_C1_counterexample :
    1 < ([(0, demoPosA), (1, demoPosB)].filter (fun q => posAmt q.2)).length ∧
    procGroup ("2024-03-01", 100) [(0, demoPosA), (1, demoPosB)] =
      ([], 0, none) := by
  constructor
  · decide
  · decide

/-- C1 (amended): for every (date, absolute-amount) candidate group:
if the group has exactly one positive and one negative member and
their account IDs differ, the two symmetric `Transfer Id` assignments
are produced (each row is assigned the other's transaction ID) and one
match is counted; if the unique pair shares one account ID, nothing is
assigned and nothing is recorded to the ambiguous report; if the group
has at least one member of each sign and more than one positive or
more than one negative member, nothing is assigned and the group's
date, amount, positive count, negative count and both candidate ID
lists are recorded as the ambiguous-report entry.  (Groups with all
members of one sign are skipped without being recorded.) -/
theorem claim_C1_amended_group_policy (k : String × ℚ) (g : List (Nat × TRow)) :
    (∀ p n, g.filter (fun q => posAmt q.2) = [p] →
      g.filter (fun q => negAmt q.2) = [n] → p.2.acct ≠ n.2.acct →
      procGroup k g = ([(p.1, n.2.uid), (n.1, p.2.uid)], 1, none)) ∧
    (∀ p n, g.filter (fun q => posAmt q.2) = [p] →
      g.filter (fun q => negAmt q.2) = [n] → p.2.acct = n.2.acct →
      procGroup k g = ([], 0, none)) ∧
    (g.filter (fun q => posAmt q.2) ≠ [] →
      g.filter (fun q => negAmt q.2) ≠ [] →
      (1 < (g.filter (fun q => posAmt q.2)).length ∨
        1 < (g.filter (fun q => negAmt q.2)).length) →
      procGroup k g = ([], 0,
        some { date := k.1, amount := k.2,
               posCount := (g.filter (fun q => posAmt q.2)).length,
               negCount := (g.filter (fun q => negAmt q.2)).length,
               posIds := (g.filter (fun q => posAmt q.2)).map (fun q => q.2.uid),
               negIds := (g.filter (fun q => negAmt q.2)).map (fun q => q.2.uid) })) := by
  refine ⟨?_, ?_, ?_⟩
  · intro p n hp hn hacct
    simp [procGroup, hp, hn, hacct]
  · intro p n hp hn hacct
    simp [procGroup, hp, hn, hacct]
  · intro hpne hnne hgt
    rcases hp : g.filter (fun q => posAmt q.2) with _ | ⟨p, ps⟩
    · exact absurd hp hpne
    rcases hn : g.filter (fun q => negAmt q.2) with _ | ⟨n, ns⟩
    · exact absurd hn hnne
    rcases ps with _ | ⟨p2, ps2⟩
    · rcases ns with _ | ⟨n2, ns2⟩
      · exfalso
        rw [hp, hn] at hgt
        simp at hgt
      · simp [procGroup, hp, hn]
    · simp [procGroup, hp, hn]

theorem claim_C1_amended_group_policy_witness :
    procGroup ("2024-03-01", 100) [(0, demoNegC), (1, demoPosB)] =
      ([(1, demoNegC.uid), (0, demoPosB.uid)], 1, none) :=
  (claim_C1_amended_group_policy ("2024-03-01", 100)
    [(0, demoNegC), (1, demoPosB)]).1 (1, demoPosB) (0, demoNegC)
    (by decide) (by decide) (by decide)

/-- C8: a linked pair in the post-matching frame whose amounts do not
cancel within the `0.01` tolerance is excluded from the
matched-transfers report (in both row orientations), while it does
trigger the mismatch warning (the mismatched-pair list the warning is
printed from is non-empty); the frame handed to the persistence step
is exactly the post-matching frame — the reporting phase never removes
the link, so both rows are rewritten with their `Transfer Id` fields
in place. -/
theorem claim_C8_mismatched_link_preserved (rows0 : List TRow) (s t : TRow)
    (a b : ℚ)
    (hs : s ∈ (link_transfers false rows0).1)
    (ht : t ∈ (link_transfers false rows0).1)
    (hst : s.transferId = some t.uid)
    (hts : t.transferId = some s.uid)
    (ha : s.amount = some a) (hb : t.amount = some b)
    (hmis : |a + b| > 1 / 100) :
    (s, t) ∉ (reconcileRun false rows0).2.2.2.1 ∧
    (t, s) ∉ (reconcileRun false rows0).2.2.2.1 ∧
    (s, t) ∈ (reconcileRun false rows0).2.2.2.2 ∧
    (reconcileRun false rows0).2.2.2.2 ≠ [] ∧
    (reconcileRun false rows0).1 = (link_transfers false rows0).1 := by
  have hmisA : amtMismatch s t = true := by
    unfold amtMismatch
    rw [ha, hb]
    exact decide_eq_true hmis
  have hmisB : amtMismatch t s = true := by
    unfold amtMismatch
    rw [ha, hb]
    exact decide_eq_true (by rw [add_comm]; exact hmis)
  have hmerged : (s, t) ∈ mergedPairs ((link_transfers false rows0).1) := by
    unfold mergedPairs
    refine List.mem_flatMap.mpr ⟨s, List.mem_filter.mpr ⟨hs, ?_⟩, ?_⟩
    · rw [hst]
      rfl
    · exact List.mem_map.mpr ⟨t, List.mem_filter.mpr ⟨ht, decide_eq_true hst⟩, rfl⟩
  have hmm : (s, t) ∈ mismatchedPairs ((link_transfers false rows0).1) :=
    List.mem_filter.mpr ⟨hmerged, hmisA⟩
  refine ⟨?_, ?_, hmm, List.ne_nil_of_mem hmm, rfl⟩
  · intro hmem
    have h1 := (List.mem_filter.mp (List.mem_filter.mp hmem).1).2
    rw [hmisA] at h1
    cases h1
  · intro hmem
    have h1 := (List.mem_filter.mp (List.mem_filter.mp hmem).1).2
    rw [hmisB] at h1
    cases h1

theorem claim_C8_mismatched_link_preserved_witness :
    (staleNeg, stalePos) ∈ (reconcileRun false [staleNeg, stalePos]).2.2.2.2 :=
  (claim_C8_mismatched_link_preserved [staleNeg, stalePos] staleNeg stalePos
    (-100) 90 (by decide) (by decide) (by decide) (by decide) (by decide)
    (by decide) (by norm_num)).2.2.1

/-- Applying assignments, then re-scanning for candidates, yields the
original candidates whose index received no assignment: a row whose
`Transfer Id` was just set is no longer a candidate, and unassigned
rows are unchanged. -/
theorem candAux_applyLinksAux (asgn : List (Nat × String)) (rows : List TRow) :
    ∀ i : Nat,
      candAux i (applyLinksAux asgn i rows) =
        (candAux i rows).filter (fun p => (List.lookup p.1 asgn).isNone) := by
  induction rows with
  | nil => intro i; simp [applyLinksAux, candAux]
  | cons r rs ih =>
    intro i
    cases hl : List.lookup i asgn with
    | some t =>
      have hng : isGrouped { r with transferId := some t } = false := by
        simp [isGrouped, isUnmatched]
      simp only [applyLinksAux, hl, candAux, hng, Bool.false_eq_true, if_false,
        List.nil_append, List.filter_append, ih (i + 1)]
      by_cases hg : isGrouped r = true
      · simp [hg, hl]
      · simp [hg]
    | none =>
      simp only [applyLinksAux, hl, candAux, List.filter_append, ih (i + 1)]
      by_cases hg : isGrouped r = true
      · simp [hg, hl]
      · simp [hg]

/-- Every candidate entry is a grouped row with index at least the
starting index. -/
theorem candAux_mem (rows : List TRow) :
    ∀ (i : Nat) (p : Nat × TRow), p ∈ candAux i rows →
      isGrouped p.2 = true ∧ i ≤ p.1 := by
  induction rows with
  | nil => intro i p h; simp [candAux] at h
  | cons r rs ih =>
    intro i p h
    rw [candAux] at h
    rcases List.mem_append.mp h with h1 | h2
    · by_cases hg : isGrouped r = true
      · rw [if_pos hg] at h1
        rcases List.mem_singleton.mp h1 with rfl
        exact ⟨hg, Nat.le_refl _⟩
      · rw [if_neg hg] at h1
        cases h1
    · have := ih (i + 1) p h2
      exact ⟨this.1, Nat.le_of_succ_le this.2⟩

/-- Candidate entries are determined by their frame index. -/
theorem candAux_inj (rows : List TRow) :
    ∀ (i : Nat) (p q : Nat × TRow), p ∈ candAux i rows → q ∈ candAux i rows →
      p.1 = q.1 → p = q := by
  induction rows with
  | nil => intro i p q hp _ _; simp [candAux] at hp
  | cons r rs ih =>
    intro i p q hp hq hpq
    rw [candAux] at hp hq
    rcases List.mem_append.mp hp with hp1 | hp2 <;>
      rcases List.mem_append.mp hq with hq1 | hq2
    · by_cases hg : isGrouped r = true
      · rw [if_pos hg] at hp1 hq1
        rw [List.mem_singleton.mp hp1, List.mem_singleton.mp hq1]
      · rw [if_neg hg] at hp1
        cases hp1
    · exfalso
      by_cases hg : isGrouped r = true
      · rw [if_pos hg] at hp1
        rcases List.mem_singleton.mp hp1 with rfl
        have := (candAux_mem rs (i + 1) q hq2).2
        omega
      · rw [if_neg hg] at hp1
        cases hp1
    · exfalso
      by_cases hg : isGrouped r = true
      · rw [if_pos hg] at hq1
        rcases List.mem_singleton.mp hq1 with rfl
        have := (candAux_mem rs (i + 1) p hp2).2
        omega
      · rw [if_neg hg] at hq1
        cases hq1
    · exact ih (i + 1) p q hp2 hq2 hpq

theorem mem_of_lookup_eq_some {α β : Type} [BEq α] [LawfulBEq α]
    {l : List (α × β)} {a : α} {b : β} (h : List.lookup a l = some b) :
    (a, b) ∈ l := by
  induction l with
  | nil => simp [List.lookup] at h
  | cons p ps ih =>
    obtain ⟨pa, pb⟩ := p
    rw [List.lookup] at h
    by_cases hb : (a == pa) = true
    · rw [hb] at h
      replace h : some pb = some b := h
      have h1 : a = pa := eq_of_beq hb
      have h2 : pb = b := Option.some.inj h
      rw [h1, ← h2]
      exact List.mem_cons_self _ _
    · rw [Bool.of_not_eq_true hb] at h
      replace h : List.lookup a ps = some b := h
      exact List.mem_cons_of_mem _ (ih h)

theorem lookup_isSome_of_mem {α β : Type} [BEq α] [LawfulBEq α]
    {l : List (α × β)} {a : α} {b : β} (h : (a, b) ∈ l) :
    (List.lookup a l).isSome = true := by
  induction l with
  | nil => cases h
  | cons p ps ih =>
    obtain ⟨pa, pb⟩ := p
    rw [List.lookup]
    by_cases hb : (a == pa) = true
    · rw [hb]
      rfl
    · rw [Bool.of_not_eq_true hb]
      show (List.lookup a ps).isSome = true
      rcases List.mem_cons.mp h with h1 | h2
      · exfalso
        apply hb
        have : a = pa := congrArg Prod.fst h1
        rw [this]
        exact BEq.refl
      · exact ih h2

theorem mem_groupOf (cands : List (Nat × TRow)) (k : String × ℚ)
    (p : Nat × TRow) :
    p ∈ groupOf cands k ↔ p ∈ cands ∧ rowKey p.2 = k := by
  unfold groupOf
  rw [List.mem_filter]
  constructor
  · rintro ⟨h1, h2⟩
    exact ⟨h1, of_decide_eq_true h2⟩
  · rintro ⟨h1, h2⟩
    exact ⟨h1, decide_eq_true h2⟩

/-- A grouped row's amount is a non-zero rational, hence strictly
positive or strictly negative. -/
theorem grouped_pos_or_neg (q : TRow) (h : isGrouped q = true) :
    posAmt q = true ∨ negAmt q = true := by
  unfold isGrouped isUnmatched nonzeroAmt at h
  unfold posAmt negAmt
  cases ha : q.amount with
  | none =>
    rw [ha] at h
    simp at h
  | some x =>
    rw [ha] at h
    simp at h
    have hx0 : x ≠ 0 := by tauto
    rcases lt_trichotomy x 0 with hx | hx | hx
    · right
      exact decide_eq_true hx
    · exact absurd hx hx0
    · left
      exact decide_eq_true hx

theorem mem_group_of_filter_singleton {cands : List (Nat × TRow)}
    {k : String × ℚ} {f : Nat × TRow → Bool} {p : Nat × TRow}
    (hp : (groupOf cands k).filter f = [p]) : p ∈ groupOf cands k :=
  List.mem_of_mem_filter (by rw [hp]; exact List.mem_cons_self _ _)

theorem groupKeys_mem_of {cands : List (Nat × TRow)} {p : Nat × TRow}
    {k : String × ℚ} (hp : p ∈ cands) (hk : rowKey p.2 = k) :
    k ∈ groupKeys cands := by
  unfold groupKeys
  rw [mem_dedup]
  exact List.mem_map.mpr ⟨p, hp, hk⟩

theorem matched_pair_assignments {cands : List (Nat × TRow)}
    {k : String × ℚ} {p n : Nat × TRow}
    (hk : k ∈ groupKeys cands)
    (heq : procGroup k (groupOf cands k) = ([(p.1, n.2.uid), (n.1, p.2.uid)], 1, none)) :
    (p.1, n.2.uid) ∈ (reconcilePass cands).1 ∧
    (n.1, p.2.uid) ∈ (reconcilePass cands).1 := by
  rw [reconcilePass_eq]
  constructor
  · exact List.mem_flatMap.mpr ⟨k, hk, by rw [heq]; exact List.mem_cons_self _ _⟩
  · exact List.mem_flatMap.mpr ⟨k, hk,
      by rw [heq]; exact List.mem_cons_of_mem _ (List.mem_cons_self _ _)⟩

/-- An assigned frame index is the index of a member of the (matched)
group of some key of the pass. -/
theorem assignment_source {cands : List (Nat × TRow)} {i : Nat} {t : String}
    (h : (i, t) ∈ (reconcilePass cands).1) :
    ∃ k ∈ groupKeys cands, ∃ r, (i, r) ∈ groupOf cands k ∧
      (procGroup k (groupOf cands k)).1 ≠ [] := by
  rw [reconcilePass_eq] at h
  rcases List.mem_flatMap.mp h with ⟨k, hk, hmem⟩
  rcases procGroup_cases k (groupOf cands k) with hmatch | hskip
  · rcases hmatch with ⟨p, n, hp, hn, hacct, heq⟩
    have hne : (procGroup k (groupOf cands k)).1 ≠ [] := by
      rw [heq]
      intro hc
      cases hc
    rw [heq] at hmem
    rcases List.mem_cons.mp hmem with h1 | h1
    · have hi : i = p.1 := congrArg Prod.fst h1
      refine ⟨k, hk, p.2, ?_, hne⟩
      rw [hi]
      exact mem_group_of_filter_singleton hp
    · rcases List.mem_cons.mp h1 with h2 | h2
      · have hi : i = n.1 := congrArg Prod.fst h2
        refine ⟨k, hk, n.2, ?_, hne⟩
        rw [hi]
        exact mem_group_of_filter_singleton hn
      · cases h2
  · rw [hskip.1] at hmem
    cases hmem

/-- C2: a second run of the matching phase, without the clear-transfers
mode and with no source-data change, makes zero additional matches.
Candidate selection admits only rows with a null `Transfer Id`, a
parseable date and a non-zero amount, so the second run's candidate
set is exactly the first run's candidates minus every row the first
run linked (second conjunct); every surviving group is then a group
the first run already declined to link, so every group of the second
pass counts zero matches. -/
theorem claim_C2_rerun_zero_matches (rows : List TRow) :
    (link_transfers false ((link_transfers false rows).1)).2.1 = 0 ∧
    candidatesOf ((link_transfers false rows).1) =
      (candidatesOf rows).filter
        (fun p => (List.lookup p.1 ((reconcilePass (candidatesOf rows)).1)).isNone) := by
  have hc2 : candidatesOf ((link_transfers false rows).1) =
      (candidatesOf rows).filter
        (fun p => (List.lookup p.1 ((reconcilePass (candidatesOf rows)).1)).isNone) :=
    candAux_applyLinksAux ((reconcilePass (candidatesOf rows)).1) rows 0
  refine ⟨?_, hc2⟩
  show (reconcilePass (candidatesOf ((link_transfers false rows).1))).2.1 = 0
  rw [reconcilePass_eq]
  apply List.sum_eq_zero
  intro x hx
  rcases List.mem_map.mp hx with ⟨k, hkmem, rfl⟩
  -- a surviving candidate with key k
  have hk0 : ∃ p0, p0 ∈ candidatesOf ((link_transfers false rows).1) ∧
      rowKey p0.2 = k := by
    unfold groupKeys at hkmem
    rw [mem_dedup] at hkmem
    rcases List.mem_map.mp hkmem with ⟨p0, hp0, hk⟩
    exact ⟨p0, hp0, hk⟩
  rcases hk0 with ⟨p0, hp02, hp0k⟩
  -- the second-run group of k is the first-run group restricted to
  -- unassigned indices
  have hgroup2 : groupOf (candidatesOf ((link_transfers false rows).1)) k =
      (groupOf (candidatesOf rows) k).filter
        (fun p => (List.lookup p.1 ((reconcilePass (candidatesOf rows)).1)).isNone) := by
    unfold groupOf
    rw [hc2, List.filter_filter, List.filter_filter]
    apply List.filter_congr
    intro a _
    exact Bool.and_comm _ _
  rcases procGroup_cases k (groupOf (candidatesOf rows) k) with hmatch | hskip
  · -- the first run matched this whole group; no candidate survives,
    -- contradicting p0
    exfalso
    rcases hmatch with ⟨p, n, hp, hn, hacct, heq⟩
    have hpg : p ∈ groupOf (candidatesOf rows) k := mem_group_of_filter_singleton hp
    have hkmem1 : k ∈ groupKeys (candidatesOf rows) :=
      groupKeys_mem_of ((mem_groupOf _ _ _).mp hpg).1 ((mem_groupOf _ _ _).mp hpg).2
    have hasgn := matched_pair_assignments hkmem1 heq
    have hassigned : ∀ q ∈ groupOf (candidatesOf rows) k,
        (List.lookup q.1 ((reconcilePass (candidatesOf rows)).1)).isSome = true := by
      intro q hq
      have hqc := (mem_groupOf _ _ _).mp hq
      have hgrp : isGrouped q.2 = true := (candAux_mem rows 0 q hqc.1).1
      rcases grouped_pos_or_neg q.2 hgrp with hqp | hqn
      · have hmem : q ∈ (groupOf (candidatesOf rows) k).filter
            (fun q => posAmt q.2) := List.mem_filter.mpr ⟨hq, hqp⟩
        rw [hp] at hmem
        rcases List.mem_singleton.mp hmem with rfl
        exact lookup_isSome_of_mem hasgn.1
      · have hmem : q ∈ (groupOf (candidatesOf rows) k).filter
            (fun q => negAmt q.2) := List.mem_filter.mpr ⟨hq, hqn⟩
        rw [hn] at hmem
        rcases List.mem_singleton.mp hmem with rfl
        exact lookup_isSome_of_mem hasgn.2
    have hp0g2 : p0 ∈ groupOf (candidatesOf ((link_transfers false rows).1)) k :=
      (mem_groupOf _ _ _).mpr ⟨hp02, hp0k⟩
    rw [hgroup2] at hp0g2
    have h1 := List.mem_filter.mp hp0g2
    have h2 := hassigned p0 h1.1
    cases hopt : List.lookup p0.1 ((reconcilePass (candidatesOf rows)).1) with
    | none => rw [hopt] at h2; cases h2
    | some u =>
      have := h1.2
      rw [hopt] at this
      cases this
  · -- the first run assigned nothing in this group: it survives
    -- unchanged and again counts zero
    have hnoassign : ∀ q ∈ groupOf (candidatesOf rows) k,
        (List.lookup q.1 ((reconcilePass (candidatesOf rows)).1)).isNone = true := by
      intro q hq
      cases hopt : List.lookup q.1 ((reconcilePass (candidatesOf rows)).1) with
      | none => rfl
      | some t =>
        exfalso
        have hmemA : (q.1, t) ∈ (reconcilePass (candidatesOf rows)).1 :=
          mem_of_lookup_eq_some hopt
        rcases assignment_source hmemA with ⟨k', hk', r', hr'mem, hne'⟩
        have hqk' := (mem_groupOf _ _ _).mp hr'mem
        have hqk := (mem_groupOf _ _ _).mp hq
        have hqeq : q = (q.1, r') :=
          candAux_inj rows 0 q (q.1, r') hqk.1 hqk'.1 rfl
        have hk'k : k' = k := by
          rw [← hqk'.2, ← hqk.2]
          have : q.2 = r' := congrArg Prod.snd hqeq
          rw [this]
        rw [hk'k] at hne'
        exact hne' hskip.1
    have hgeq : groupOf (candidatesOf ((link_transfers false rows).1)) k =
        groupOf (candidatesOf rows) k := by
      rw [hgroup2]
      exact List.filter_eq_self.mpr hnoassign
    rw [hgeq, hskip.2]

set_option maxRecDepth 20000 in
/-- Faithfulness check of the MD5 embedding against the RFC 1321 test
vectors and a concrete transaction-id value. -/
theorem md5Hex_test_vectors :
    md5Hex (utf8Bytes "") = "d41d8cd98f00b204e9800998ecf8427e" ∧
    md5Hex (utf8Bytes "abc") = "900150983cd24fb0d6963f7d28e17f72" ∧
    generate_transaction_id "2024-01-01" "1.0" "a" "b" =
      "a15ff96ba2bb841cf43ff376931ae434" := by
  refine ⟨by decide, by decide, by decide⟩
